import Mathlib

/-
Verification of the scene-boundary extraction pipeline
(`extract-scene-boundaries.py`): transcript words, phrase normalization,
fuzzy phrase matching, boundary assembly with cursor/fallback state,
duration computation, and the three output formatters.

Python floats are modelled as rationals (`Rat`); Python's `round(x, 2)`
is modelled as round-half-to-even on hundredths.  Python lists are Lean
lists; `None` is `Option.none`; diagnostic warnings printed to stderr are
collected in a list.
-/

namespace ExtractSceneBoundaries

/-- A word of the flattened transcript: text plus start and end
timestamps in seconds (source: `load_transcript`, which strips the text
and keeps `start`/`end`). -/
structure TranscriptWord where
  word : String
  start : Rat
  end_ : Rat
deriving DecidableEq

/-- The character class kept by normalization: Python's regex class
`\w` restricted to its ASCII core (alphanumeric or underscore). -/
def isWordChar (c : Char) : Bool :=
  c.isAlphanum || c == '_'

/-- `normalize_word`: lowercase, then remove every character that is not
a word character (source: `re.sub(r"[^\w]", "", word.lower())`). -/
def normalize_word (word : String) : String :=
  String.mk ((word.data.map Char.toLower).filter isWordChar)

/-- Worker for whitespace splitting: `acc` holds the reversed characters
of the token being read. -/
def split_ws_aux : List Char → List Char → List String
  | [], acc => if acc.isEmpty then [] else [String.mk acc.reverse]
  | c :: cs, acc =>
    if c.isWhitespace then
      (if acc.isEmpty then [] else [String.mk acc.reverse]) ++ split_ws_aux cs []
    else split_ws_aux cs (c :: acc)

/-- Whitespace split discarding empty pieces, as Python's `str.split()`
with no argument behaves. -/
def split_ws (s : String) : List String :=
  split_ws_aux s.data []

/-- The normalized token list of a phrase (source: `phrase.split()`
followed by `normalize_word` on each token). -/
def phrase_tokens (phrase : String) : List String :=
  (split_ws phrase).map normalize_word

/-- The first three characters of a string, or the whole string if it is
shorter (source: `pw[:3]`). -/
def first3 (s : String) : String :=
  String.mk (s.data.take 3)

/-- Python's `s.startswith(pre)`. -/
def starts_with (s pre : String) : Bool :=
  pre.data.isPrefixOf s.data

/-- The inner loop of `find_phrase_in_transcript`: every token at offset
`j` must 3-character-prefix-match the transcript word at the same
offset. -/
def tokens_match : List String → List TranscriptWord → Bool
  | [], _ => true
  | _ :: _, [] => false
  | tk :: tks, w :: ws =>
    starts_with (normalize_word w.word) (first3 tk) && tokens_match tks ws

/-- The scan of `find_phrase_in_transcript` over the suffix of the word
list that starts at the cursor: candidate windows are tried left to
right while a full window still fits (`range(start_from,
len(words) - len(phrase_normalized) + 1)`); the first full match returns
the start timestamp of its first word. -/
def scan_phrase (tks : List String) : List TranscriptWord → Option Rat
  | [] => none
  | w :: ws =>
    if tks.length ≤ ws.length + 1 then
      if tokens_match tks (w :: ws) then some w.start
      else scan_phrase tks ws
    else none

/-- `find_phrase_in_transcript(phrase, words, start_from)`: start
timestamp of the first fuzzy occurrence of the phrase at or after the
cursor, `none` when there is none. -/
def find_phrase_in_transcript (phrase : String) (words : List TranscriptWord)
    (start_from : Nat) : Option Rat :=
  scan_phrase (phrase_tokens phrase) (words.drop start_from)

/-- One scene's boundary record before durations are attached (source:
the dict appended to `boundaries` inside `extract_boundaries`). -/
structure SceneBoundary where
  number : Nat
  slug : String
  start_seconds : Rat
  opening_phrase : String
deriving DecidableEq

/-- A boundary after the duration pass added `duration_seconds`. -/
structure TimedBoundary where
  base : SceneBoundary
  duration_seconds : Rat
deriving DecidableEq

/-- The mutable state of the assembly loop in `extract_boundaries`:
accumulated boundaries, `last_end`, `search_from`, and the warnings
printed so far (modelled as a list of scene slug and phrase). -/
structure AssemblerState where
  boundaries : List SceneBoundary
  last_end : Rat
  search_from : Nat
  warnings : List (String × String)
deriving DecidableEq

/-- Index of the first element satisfying `p` (source:
`next((j for j, w in enumerate(words) if ...), default)` without the
default, which is applied at the call site). -/
def first_index_from (p : TranscriptWord → Bool) : List TranscriptWord → Option Nat
  | [] => none
  | w :: ws => if p w then some 0 else (first_index_from p ws).map (fun j => j + 1)

/-- The body of the `for i, (slug, phrase) in enumerate(phrases)` loop of
`extract_boundaries`: on a miss, warn and fall back to `last_end`; on a
match at `t`, record `t`, advance the cursor to the first word with
`start >= t + 1`, keeping it unchanged when no such word exists. -/
def step_scene (words : List TranscriptWord) (st : AssemblerState)
    (i : Nat) (slug phrase : String) : AssemblerState :=
  match find_phrase_in_transcript phrase words st.search_from with
  | none =>
    { boundaries := st.boundaries ++ [⟨i + 1, slug, st.last_end, phrase⟩]
      last_end := st.last_end
      search_from := st.search_from
      warnings := st.warnings ++ [(slug, phrase)] }
  | some t =>
    { boundaries := st.boundaries ++ [⟨i + 1, slug, t, phrase⟩]
      last_end := t
      search_from :=
        (first_index_from (fun w => decide (t + 1 ≤ w.start)) words).getD st.search_from
      warnings := st.warnings }

/-- The scene loop itself, driving `step_scene` over the enumerated
phrase list. -/
def run_scenes_from (words : List TranscriptWord) :
    Nat → AssemblerState → List (String × String) → AssemblerState
  | _, st, [] => st
  | i, st, (slug, phrase) :: rest =>
    run_scenes_from words (i + 1) (step_scene words st i slug phrase) rest

/-- Initial loop state: no boundaries, `last_end = 0`,
`search_from = 0`, no warnings. -/
def init_state : AssemblerState :=
  ⟨[], 0, 0, []⟩

/-- State after processing every scene. -/
def run_scenes (words : List TranscriptWord) (phrases : List (String × String)) :
    AssemblerState :=
  run_scenes_from words 0 init_state phrases

/-- Round a rational to the nearest integer, ties to even — the rounding
of Python's `round` on the exact value. -/
def round_half_even (q : Rat) : Int :=
  let f := ⌊q⌋
  if q - f < 1 / 2 then f
  else if (1 : Rat) / 2 < q - f then f + 1
  else if f % 2 = 0 then f else f + 1

/-- Python's `round(x, 2)` on the exact rational value. -/
def round2 (q : Rat) : Rat :=
  (round_half_even (q * 100) : Rat) / 100

/-- `total_duration = words[-1]["end"] if words else 0`. -/
def total_duration (words : List TranscriptWord) : Rat :=
  match words.getLast? with
  | some w => w.end_
  | none => 0

/-- The duration pass of `extract_boundaries`: boundary `i` gets
`round(start(i+1) - start(i), 2)`, the last boundary gets
`round(total_duration - start, 2)`. -/
def add_durations (total : Rat) : List SceneBoundary → List TimedBoundary
  | [] => []
  | [b] => [⟨b, round2 (total - b.start_seconds)⟩]
  | b :: b2 :: rest =>
    ⟨b, round2 (b2.start_seconds - b.start_seconds)⟩ :: add_durations total (b2 :: rest)

/-- `extract_boundaries` on already-loaded words and scene phrases (the
file loading and the fatal empty-input checks live outside this pure
core). -/
def extract_boundaries (words : List TranscriptWord)
    (phrases : List (String × String)) : List TimedBoundary :=
  add_durations (total_duration words) (run_scenes words phrases).boundaries

/-- `sum(b["duration_seconds"] for b in boundaries)` as computed in
`main`. -/
def sum_durations (bs : List TimedBoundary) : Rat :=
  (bs.map (fun b => b.duration_seconds)).sum

/-- Python's `"\n".join(lines)`. -/
def join_lines : List String → String
  | [] => ""
  | [l] => l
  | l :: ls => l ++ "\n" ++ join_lines ls

/-- Worker for dash splitting: `acc` holds the reversed characters of
the current piece; empty pieces are kept, as Python's `split("-")`
does. -/
def split_dash_aux : List Char → List Char → List String
  | [], acc => [String.mk acc.reverse]
  | c :: cs, acc =>
    if c == '-' then String.mk acc.reverse :: split_dash_aux cs []
    else split_dash_aux cs (c :: acc)

/-- `slug.split("-")` (always non-empty, `[""]` for the empty slug). -/
def split_dash (s : String) : List String :=
  split_dash_aux s.data []

/-- Python's `str.isdigit` on ASCII: non-empty and all digits. -/
def str_isdigit (s : String) : Bool :=
  !s.data.isEmpty && s.data.all Char.isDigit

/-- Python's `str.zfill(width)` for the non-negative strings it is
applied to here. -/
def zfill (width : Nat) (s : String) : String :=
  if s.length < width then String.mk (List.replicate (width - s.length) ('0')) ++ s else s

/-- Character-level worker for Python's `str.title`: a letter following
a non-letter is uppercased, a letter following a letter is lowercased,
other characters pass through. -/
def title_chars : Bool → List Char → List Char
  | _, [] => []
  | prev, c :: cs =>
    (if c.isAlpha then (if prev then c.toLower else c.toUpper) else c) :: title_chars c.isAlpha cs

/-- Python's `str.title` (ASCII behaviour). -/
def title_str (s : String) : String :=
  String.mk (title_chars false s.data)

/-- The `num` / `name_parts` computed per boundary in
`format_typescript`: a purely numeric first dash-segment becomes the
scene-number prefix, otherwise the boundary's own `number` is
zero-padded to two digits and all segments are kept. -/
def ts_name_info (number : Nat) (slug : String) : String × List String :=
  let parts := split_dash slug
  if str_isdigit (parts.headD ("")) then (parts.headD (""), parts.tail)
  else (zfill 2 (toString number), parts)

/-- The generated component identifier
`f"Scene{num}{''.join(p.title() for p in name_parts)}"`. -/
def ts_component_name (number : Nat) (slug : String) : String :=
  let info := ts_name_info number slug
  "Scene" ++ info.fst ++ String.join (info.snd.map title_str)

/-- Decimal text of a rational.  Stands in for Python's numeric `repr`
inside generated output; no claim inspects the digits themselves. -/
def rat_repr (q : Rat) : String :=
  if q.den = 1 then toString q.num else toString q.num ++ "/" ++ toString q.den

/-- Python's `f"{x:.2f}"` on the exact rational value. -/
def fmt2 (q : Rat) : String :=
  let n := round_half_even (q * 100)
  let m := n.natAbs
  (if n < 0 then ("-") else ("")) ++ toString (m / 100) ++ "." ++ zfill 2 (toString (m % 100))

/-- The six lines `format_typescript` emits for one boundary. -/
def ts_scene_lines (b : TimedBoundary) : List String :=
  let info := ts_name_info b.base.number b.base.slug
  [ "  \x7b",
    "    number: " ++ toString b.base.number ++ ",",
    "    slug: \x27" ++ String.intercalate ("-") info.snd ++ "\x27,",
    "    durationSeconds: " ++ rat_repr b.duration_seconds ++ ",  // "
      ++ fmt2 b.base.start_seconds ++ "s - "
      ++ fmt2 (b.base.start_seconds + b.duration_seconds) ++ "s",
    "    component: " ++ ts_component_name b.base.number b.base.slug ++ ",",
    "  \x7d," ]

/-- All lines of the TypeScript rendering: four header lines, six lines
per boundary, one closing line. -/
def ts_all_lines (bs : List TimedBoundary) : List String :=
  ["// Scene timing data (at 30fps)",
   "// Timings extracted from full-narration.wav transcript",
   "const FPS = 30;",
   "const scenes = ["]
  ++ (bs.map ts_scene_lines).flatten
  ++ ["];"]

/-- `format_typescript(boundaries)`. -/
def format_typescript (bs : List TimedBoundary) : String :=
  join_lines (ts_all_lines bs)

/-- The lines `json.dumps` produces for one boundary dict at indent 2
(string values inserted verbatim; escaping is irrelevant to the claims
checked here). -/
def json_item_lines (b : TimedBoundary) : List String :=
  [ "  \x7b",
    "    \"number\": " ++ toString b.base.number ++ ",",
    "    \"slug\": \"" ++ b.base.slug ++ "\",",
    "    \"start_seconds\": " ++ rat_repr b.base.start_seconds ++ ",",
    "    \"opening_phrase\": \"" ++ b.base.opening_phrase ++ "\",",
    "    \"duration_seconds\": " ++ rat_repr b.duration_seconds,
    "  \x7d" ]

/-- `format_json(boundaries)`, i.e. `json.dumps(boundaries, indent=2)`:
`[]` for the empty list, otherwise the items joined by `",\n"` inside
brackets. -/
def format_json (bs : List TimedBoundary) : String :=
  match bs with
  | [] => "[]"
  | _ :: _ =>
    "[\n" ++ String.intercalate (",\n") (bs.map (fun b => join_lines (json_item_lines b))) ++ "\n]"

/-- `n * c` as a string. -/
def repeat_char (c : Char) (n : Nat) : String :=
  String.mk (List.replicate n c)

/-- Left-justify in `width` (Python `f"{s:<w}"`). -/
def pad_right (width : Nat) (s : String) : String :=
  s ++ String.mk (List.replicate (width - s.length) (' '))

/-- Right-justify in `width` (Python `f"{s:>w}"`). -/
def pad_left (width : Nat) (s : String) : String :=
  String.mk (List.replicate (width - s.length) (' ')) ++ s

/-- `format_table(boundaries, total_duration)`. -/
def format_table (bs : List TimedBoundary) (total : Rat) : String :=
  join_lines (
    ["Scene Boundaries",
     repeat_char ('=') 60,
     pad_right 4 ("#") ++ " " ++ pad_right 30 ("Slug") ++ " "
       ++ pad_left 8 ("Start") ++ " " ++ pad_left 10 ("Duration"),
     repeat_char ('-') 60]
    ++ bs.map (fun b =>
         pad_right 4 (toString b.base.number) ++ " " ++ pad_right 30 b.base.slug ++ " "
           ++ pad_left 7 (fmt2 b.base.start_seconds) ++ "s "
           ++ pad_left 9 (fmt2 b.duration_seconds) ++ "s")
    ++ [repeat_char ('-') 60,
        pad_right 35 ("Total") ++ " " ++ pad_left 18 (fmt2 total) ++ "s"])

/-- The output branch of `main`: `--json` first, then `--typescript`,
else the table (with the summed total in the footer). -/
def main_output (jsonFlag tsFlag : Bool) (bs : List TimedBoundary) : String :=
  if jsonFlag then format_json bs
  else if tsFlag then format_typescript bs
  else format_table bs (sum_durations bs)

/-- The fuzzy matching rule at window position `k` of a word list:
every defined pair of a token and the word at the same offset satisfies
the 3-character-prefix test. -/
def okTokensAt (tks : List String) (ws : List TranscriptWord) (k : Nat) : Prop :=
  ∀ j tk w, tks.get? j = some tk → ws.get? (k + j) = some w →
    starts_with (normalize_word w.word) (first3 tk) = true

/-- The matching rule of the spec at candidate index `i` of the
transcript, for a given phrase. -/
def okAt (phrase : String) (words : List TranscriptWord) (i : Nat) : Prop :=
  okTokensAt (phrase_tokens phrase) words i

/-- `t` is the start timestamp of the smallest in-range candidate index
at or after the cursor that satisfies the matching rule. -/
def FirstMatch (phrase : String) (words : List TranscriptWord)
    (cursor : Nat) (t : Rat) : Prop :=
  ∃ i w, cursor ≤ i ∧ i + (phrase_tokens phrase).length ≤ words.length ∧
    words.get? i = some w ∧ t = w.start ∧ okAt phrase words i ∧
    ∀ i2, cursor ≤ i2 → i2 < i → ¬ okAt phrase words i2

/-- No candidate index in `[cursor, len(words) - phraseLength]`
satisfies the matching rule. -/
def NoIndexMatches (phrase : String) (words : List TranscriptWord)
    (cursor : Nat) : Prop :=
  ∀ i, cursor ≤ i → i + (phrase_tokens phrase).length ≤ words.length →
    ¬ okAt phrase words i

/-- Transcript words used by several concrete witnesses below. -/
def wit_words : List TranscriptWord :=
  [⟨"The", 0, 1/5⟩, ⟨"kitchens", 1/5, 3/5⟩, ⟨"was", 3/5, 4/5⟩, ⟨"quiet", 4/5, 6/5⟩]

/-- The phrase's normalized tokens exactly equal (token for token, not
merely by prefix) the `phraseLength` normalized transcript words starting
at index `k`. -/
def ExactRunAt (phrase : String) (words : List TranscriptWord) (k : Nat) : Prop :=
  phrase_tokens phrase ≠ [] ∧
  k + (phrase_tokens phrase).length ≤ words.length ∧
  ∀ j < (phrase_tokens phrase).length,
    (words.get? (k + j)).map (fun w => normalize_word w.word) = (phrase_tokens phrase).get? j

/-- Transcript for the C5 counterexample: a fuzzy (prefix-only) match
sits before the exact occurrence of the phrase. -/
def ce5_words : List TranscriptWord :=
  [⟨"kitchens", 0, 1⟩, ⟨"kitchen", 5, 6⟩]

/-- The previous boundary's start: the `start_seconds` of the last
accumulated boundary, `0` when there is none. -/
def last_start (bs : List SceneBoundary) : Rat :=
  match bs.getLast? with
  | some b => b.start_seconds
  | none => 0

/-- A concrete assembler state for the C2 witness: one boundary already
recorded with start 2. -/
def ce2_state : AssemblerState :=
  ⟨[⟨1, "s1", 2, "p1"⟩], 2, 0, []⟩

/-- Transcript for the C2 and C10 witnesses: its only word matches
neither witness phrase, and its start time is not 0. -/
def ce2_words : List TranscriptWord :=
  [⟨"zebra", 15/2, 8⟩]

/-- Transcript for the C6 witness: the match is at time 0 and the word
at index 1 is the first whose start is at least 1. -/
def ce6_words : List TranscriptWord :=
  [⟨"alpha", 0, 2/5⟩, ⟨"beta", 2, 5/2⟩]

/-- `q` is an integer number of hundredths of a second — true of every
timestamp the transcriber emits. -/
def cent (q : Rat) : Prop := (q * 100).den = 1

/-- The loop state keeps all recorded starts (and `last_end`) on the
hundredths grid when all word starts are. -/
def centState (st : AssemblerState) : Prop :=
  cent st.last_end ∧ ∀ b ∈ st.boundaries, cent b.start_seconds

/-- Transcript for the C3 counterexample: the second word starts
0.005 s after the first, a difference the 2-decimal rounding erases. -/
def ce3_words : List TranscriptWord :=
  [⟨"alpha", 0, 0.4⟩, ⟨"beta", 0.005, 1⟩]

/-- Scenes for the C3 counterexample. -/
def ce3_phrases : List (String × String) :=
  [("s1", "alpha"), ("s2", "beta")]

/-- First output boundary on the C3 example. -/
def ce3_b0 : TimedBoundary := ⟨⟨1, "s1", 0, "alpha"⟩, 0⟩

/-- Second output boundary on the C3 example. -/
def ce3_b1 : TimedBoundary := ⟨⟨2, "s2", 0.005, "beta"⟩, 1⟩

/-- Transcript for the C4 counterexample: a single word from 5 s to
6 s, so the narration does not start at 0. -/
def ce4_words : List TranscriptWord :=
  [⟨"alpha", 5, 6⟩]

/-- Scenes for the C4 counterexample. -/
def ce4_phrases : List (String × String) :=
  [("s1", "alpha")]

/-- The single output boundary on the C4 example. -/
def ce4_b0 : TimedBoundary := ⟨⟨1, "s1", 5, "alpha"⟩, 1⟩

/-- A boundary with a malformed slug, used by the C7 witness. -/
def ce7_b : TimedBoundary := ⟨⟨1, "kitchen opening!", 0, "x"⟩, 2⟩

/-! ## Specification-side predicates for the matcher -/

/-! ## Helper lemmas about lists -/

theorem get?_some_lt {α : Type} : ∀ (l : List α) (j : Nat) (a : α),
    l.get? j = some a → j < l.length := by
  intro l
  induction l with
  | nil => intro j a h; simp at h
  | cons x l ih =>
    intro j a h
    cases j with
    | zero => simp
    | succ j => exact Nat.succ_lt_succ (ih j a h)

theorem lt_get?_some {α : Type} : ∀ (l : List α) (j : Nat),
    j < l.length → ∃ a, l.get? j = some a := by
  intro l
  induction l with
  | nil => intro j h; simp at h
  | cons x l ih =>
    intro j h
    cases j with
    | zero => exact ⟨x, rfl⟩
    | succ j => exact ih j (Nat.lt_of_succ_lt_succ h)

theorem get?_drop_eq {α : Type} : ∀ (l : List α) (n m : Nat),
    (l.drop n).get? m = l.get? (n + m) := by
  intro l
  induction l with
  | nil => intro n m; simp
  | cons a l ih =>
    intro n m
    cases n with
    | zero => simp
    | succ n =>
      have h1 : n + 1 + m = (n + m) + 1 := by omega
      rw [h1]
      exact ih n m

/-! ## Matcher characterization -/

theorem okTokensAt_cons_succ (tks : List String) (w : TranscriptWord)
    (ws : List TranscriptWord) (k : Nat) :
    okTokensAt tks (w :: ws) (k + 1) ↔ okTokensAt tks ws k := by
  constructor
  · intro h j tk w2 hj hw
    have h1 : (w :: ws).get? (k + 1 + j) = some w2 := by
      have : k + 1 + j = (k + j) + 1 := by omega
      rw [this]
      exact hw
    exact h j tk w2 hj h1
  · intro h j tk w2 hj hw
    have h1 : ws.get? (k + j) = some w2 := by
      have : k + 1 + j = (k + j) + 1 := by omega
      rw [this] at hw
      exact hw
    exact h j tk w2 hj h1

theorem tokens_match_iff (tks : List String) : ∀ (ws : List TranscriptWord),
    tks.length ≤ ws.length →
    (tokens_match tks ws = true ↔ okTokensAt tks ws 0) := by
  induction tks with
  | nil =>
    intro ws _
    simp [tokens_match, okTokensAt]
  | cons tk tks ih =>
    intro ws hlen
    cases ws with
    | nil => simp at hlen
    | cons w ws =>
      have hlen2 : tks.length ≤ ws.length := by
        simpa using Nat.le_of_succ_le_succ hlen
      simp only [tokens_match, Bool.and_eq_true]
      constructor
      · rintro ⟨h1, h2⟩ j tk2 w2 hj hw
        cases j with
        | zero =>
          simp only [List.get?] at hj hw
          cases hj; cases hw
          exact h1
        | succ j =>
          have hok := (ih ws hlen2).mp h2
          have : (0 : Nat) + j = j := Nat.zero_add j
          exact hok j tk2 w2 hj (by simpa using hw)
      · intro h
        constructor
        · exact h 0 tk w rfl rfl
        · refine (ih ws hlen2).mpr ?_
          intro j tk2 w2 hj hw
          exact h (j + 1) tk2 w2 (by simpa using hj) (by simpa using hw)

theorem scan_phrase_spec (tks : List String) (htks : tks ≠ []) :
    ∀ (ws : List TranscriptWord),
    (∀ t, scan_phrase tks ws = some t →
      ∃ k w, ws.get? k = some w ∧ k + tks.length ≤ ws.length ∧
        okTokensAt tks ws k ∧ (∀ k2, k2 < k → ¬ okTokensAt tks ws k2) ∧
        t = w.start) ∧
    (scan_phrase tks ws = none →
      ∀ k, k + tks.length ≤ ws.length → ¬ okTokensAt tks ws k) := by
  intro ws
  induction ws with
  | nil =>
    constructor
    · intro t h; simp [scan_phrase] at h
    · intro _ k hk
      exfalso
      apply htks
      cases tks with
      | nil => rfl
      | cons t ts => simp at hk
  | cons w ws ih =>
    obtain ⟨ih1, ih2⟩ := ih
    by_cases hlen : tks.length ≤ ws.length + 1
    · by_cases hm : tokens_match tks (w :: ws) = true
      · constructor
        · intro t ht
          have ht2 : some w.start = some t := by
            simpa [scan_phrase, hlen, hm] using ht
          refine ⟨0, w, rfl, by simpa using hlen, ?_, ?_, ?_⟩
          · exact (tokens_match_iff tks (w :: ws) (by simpa using hlen)).mp hm
          · intro k2 hk2; omega
          · exact (Option.some_injective _ ht2).symm
        · intro ht
          exfalso
          simp [scan_phrase, hlen, hm] at ht
      · have hscan : scan_phrase tks (w :: ws) = scan_phrase tks ws := by
          simp [scan_phrase, hlen, hm]
        have hnot0 : ¬ okTokensAt tks (w :: ws) 0 := by
          intro hok
          exact hm ((tokens_match_iff tks (w :: ws) (by simpa using hlen)).mpr hok)
        constructor
        · intro t ht
          rw [hscan] at ht
          obtain ⟨k, w2, hget, hrange, hok, hmin, hts⟩ := ih1 t ht
          refine ⟨k + 1, w2, hget, by simp; omega, ?_, ?_, hts⟩
          · exact (okTokensAt_cons_succ tks w ws k).mpr hok
          · intro k2 hk2
            cases k2 with
            | zero => exact hnot0
            | succ k3 =>
              intro hok3
              exact hmin k3 (by omega) ((okTokensAt_cons_succ tks w ws k3).mp hok3)
        · intro ht k hk
          rw [hscan] at ht
          cases k with
          | zero => exact hnot0
          | succ k3 =>
            intro hok3
            exact ih2 ht k3 (by simp at hk; omega)
              ((okTokensAt_cons_succ tks w ws k3).mp hok3)
    · have hscan : scan_phrase tks (w :: ws) = none := by
        simp [scan_phrase, hlen]
      constructor
      · intro t ht; rw [hscan] at ht; cases ht
      · intro _ k hk
        exfalso
        simp at hk
        omega

theorem okTokensAt_drop (tks : List String) (l : List TranscriptWord) (n k : Nat) :
    okTokensAt tks (l.drop n) k ↔ okTokensAt tks l (n + k) := by
  constructor
  · intro h j tk w hj hw
    apply h j tk w hj
    rw [get?_drop_eq]
    have : n + (k + j) = n + k + j := by omega
    rw [this]
    exact hw
  · intro h j tk w hj hw
    apply h j tk w hj
    rw [get?_drop_eq] at hw
    have : n + (k + j) = n + k + j := by omega
    rw [this] at hw
    exact hw

theorem find_some_iff (phrase : String) (words : List TranscriptWord)
    (cursor : Nat) (htks : phrase_tokens phrase ≠ []) (t : Rat) :
    find_phrase_in_transcript phrase words cursor = some t ↔
      FirstMatch phrase words cursor t := by
  obtain ⟨spec1, spec2⟩ := scan_phrase_spec (phrase_tokens phrase) htks (words.drop cursor)
  constructor
  · intro h
    obtain ⟨k, w, hget, hrange, hok, hmin, hts⟩ := spec1 t h
    have hklt : k < (words.drop cursor).length := get?_some_lt _ k w hget
    have hdl : (words.drop cursor).length = words.length - cursor := by simp
    refine ⟨cursor + k, w, Nat.le_add_right cursor k, by omega, ?_, hts, ?_, ?_⟩
    · rw [← get?_drop_eq]; exact hget
    · exact (okTokensAt_drop _ words cursor k).mp hok
    · intro i2 hc2 hlt hok2
      have hi2 : i2 = cursor + (i2 - cursor) := by omega
      apply hmin (i2 - cursor) (by omega)
      rw [okTokensAt_drop]
      rw [← hi2]
      exact hok2
  · rintro ⟨i, w, hci, hrange, hget, hts, hok, hmin⟩
    cases hfind : find_phrase_in_transcript phrase words cursor with
    | none =>
      exfalso
      have hi : i = cursor + (i - cursor) := by omega
      apply spec2 hfind (i - cursor) (by simp; omega)
      rw [okTokensAt_drop, ← hi]
      exact hok
    | some t2 =>
      obtain ⟨k2, w2, hget2, hrange2, hok2, hmin2, hts2⟩ := spec1 t2 hfind
      have hklt2 : k2 < (words.drop cursor).length := get?_some_lt _ k2 w2 hget2
      have hdl : (words.drop cursor).length = words.length - cursor := by simp
      have hok2w : okAt phrase words (cursor + k2) :=
        (okTokensAt_drop _ words cursor k2).mp hok2
      have heq : cursor + k2 = i := by
        rcases Nat.lt_trichotomy (cursor + k2) i with hlt | heq | hgt
        · exact absurd hok2w (hmin (cursor + k2) (Nat.le_add_right _ _) hlt)
        · exact heq
        · exfalso
          apply hmin2 (i - cursor) (by omega)
          have hi : i = cursor + (i - cursor) := by omega
          rw [okTokensAt_drop, ← hi]
          exact hok
      have hw : w2 = w := by
        have hget2w : words.get? (cursor + k2) = some w2 := by
          rw [← get?_drop_eq]; exact hget2
        rw [heq, hget] at hget2w
        exact (Option.some_injective _ hget2w).symm
      rw [hts, ← hw, ← hts2]

theorem find_none_iff (phrase : String) (words : List TranscriptWord)
    (cursor : Nat) (htks : phrase_tokens phrase ≠ []) :
    find_phrase_in_transcript phrase words cursor = none ↔
      NoIndexMatches phrase words cursor := by
  obtain ⟨spec1, spec2⟩ := scan_phrase_spec (phrase_tokens phrase) htks (words.drop cursor)
  constructor
  · intro h i hci hrange hok
    have hi : i = cursor + (i - cursor) := by omega
    apply spec2 h (i - cursor) (by simp; omega)
    rw [okTokensAt_drop, ← hi]
    exact hok
  · intro hno
    cases hfind : find_phrase_in_transcript phrase words cursor with
    | none => rfl
    | some t =>
      exfalso
      obtain ⟨k, w, hget, hrange, hok, hmin, hts⟩ := spec1 t hfind
      have hklt : k < (words.drop cursor).length := get?_some_lt _ k w hget
      have hdl : (words.drop cursor).length = words.length - cursor := by simp
      apply hno (cursor + k) (Nat.le_add_right _ _) (by omega)
      exact (okTokensAt_drop _ words cursor k).mp hok

/-- C1: for every phrase (with at least one whitespace token), transcript
word list, and cursor, `find_phrase_in_transcript` returns the start
timestamp of `words[i]` for the smallest in-range index `i ≥ cursor`
whose window satisfies the 3-character-prefix rule on every normalized
token, and returns `none` exactly when no in-range index satisfies the
rule. -/
theorem C1_matcher_spec (phrase : String) (words : List TranscriptWord)
    (cursor : Nat) (htks : phrase_tokens phrase ≠ []) :
    (∀ t, find_phrase_in_transcript phrase words cursor = some t ↔
      FirstMatch phrase words cursor t) ∧
    (find_phrase_in_transcript phrase words cursor = none ↔
      NoIndexMatches phrase words cursor) :=
  ⟨fun t => find_some_iff phrase words cursor htks t,
   find_none_iff phrase words cursor htks⟩

/-- C1 witness: the characterization instantiated at a concrete phrase,
transcript, and cursor. -/
theorem C1_matcher_spec_witness :
    phrase_tokens ("the kitchen") ≠ [] ∧
    ((∀ t, find_phrase_in_transcript ("the kitchen") wit_words 0 = some t ↔
      FirstMatch ("the kitchen") wit_words 0 t) ∧
    (find_phrase_in_transcript ("the kitchen") wit_words 0 = none ↔
      NoIndexMatches ("the kitchen") wit_words 0)) :=
  ⟨by decide, C1_matcher_spec ("the kitchen") wit_words 0 (by decide)⟩

/-! ## C5: exact runs and what the matcher actually returns -/

theorem isPrefixOf_take : ∀ (n : Nat) (l : List Char), (l.take n).isPrefixOf l = true := by
  intro n
  induction n with
  | zero => intro l; simp [List.isPrefixOf]
  | succ n ih =>
    intro l
    cases l with
    | nil => simp [List.isPrefixOf]
    | cons a l => simpa [List.isPrefixOf] using ih l

theorem starts_with_first3_self (s : String) : starts_with s (first3 s) = true :=
  isPrefixOf_take 3 s.data

theorem exact_run_ok (phrase : String) (words : List TranscriptWord) (k : Nat)
    (hrun : ExactRunAt phrase words k) : okAt phrase words k := by
  intro j tk w hj hw
  have hjlt : j < (phrase_tokens phrase).length := get?_some_lt _ j tk hj
  have h3 := hrun.2.2 j hjlt
  rw [hw, hj] at h3
  have heq : normalize_word w.word = tk := Option.some_injective _ h3
  rw [heq]
  exact starts_with_first3_self tk

/-- C5 counterexample: the normalized token of the phrase `"kitchen"`
exactly equals the run of length 1 at index 1 (start time 5), yet the
matcher returns 0 — the start of the earlier fuzzy match `"kitchens"` —
so the claim as stated is false. -/
theorem C5_counterexample :
    ExactRunAt ("kitchen") ce5_words 1 ∧
    (ce5_words.get? 1).map (fun w => w.start) = some 5 ∧
    find_phrase_in_transcript ("kitchen") ce5_words 0 = some 0 ∧
    (0 : Rat) ≠ 5 := by
  refine ⟨⟨by decide, by decide, by decide⟩, by decide, by decide, by decide⟩

/-- C5 amended: if the phrase's normalized tokens exactly equal a
contiguous run starting at some `k ≥ cursor`, the matcher does return a
start time — that of the earliest fuzzy-matching index `i` with
`cursor ≤ i ≤ k`; it is the run's own first word exactly when no earlier
index at or after the cursor fuzzy-matches. -/
theorem C5_exact_run (phrase : String) (words : List TranscriptWord)
    (cursor k : Nat) (hrun : ExactRunAt phrase words k) (hck : cursor ≤ k) :
    ∃ i w, cursor ≤ i ∧ i ≤ k ∧ words.get? i = some w ∧
      find_phrase_in_transcript phrase words cursor = some w.start ∧
      okAt phrase words i ∧
      ((∀ i2, cursor ≤ i2 → i2 < k → ¬ okAt phrase words i2) → i = k) := by
  have htks := hrun.1
  have hok_k := exact_run_ok phrase words k hrun
  have hrange_k := hrun.2.1
  cases hfind : find_phrase_in_transcript phrase words cursor with
  | none =>
    exact absurd hok_k ((find_none_iff phrase words cursor htks).mp hfind k hck hrange_k)
  | some t =>
    obtain ⟨i, w, hci, hrange, hget, hts, hoki, hmin⟩ :=
      (find_some_iff phrase words cursor htks t).mp hfind
    have hik : i ≤ k := by
      by_contra hik
      exact hmin k hck (by omega) hok_k
    refine ⟨i, w, hci, hik, hget, by rw [hts], hoki, ?_⟩
    intro hfirst
    by_contra hne
    exact hfirst i hci (by omega) hoki

/-- C5 witness: the amended statement instantiated on the
counterexample transcript. -/
theorem C5_exact_run_witness :
    ExactRunAt ("kitchen") ce5_words 1 ∧
    (∃ i w, 0 ≤ i ∧ i ≤ 1 ∧ ce5_words.get? i = some w ∧
      find_phrase_in_transcript ("kitchen") ce5_words 0 = some w.start ∧
      okAt ("kitchen") ce5_words i ∧
      ((∀ i2, 0 ≤ i2 → i2 < 1 → ¬ okAt ("kitchen") ce5_words i2) → i = 1)) :=
  ⟨⟨by decide, by decide, by decide⟩,
   C5_exact_run ("kitchen") ce5_words 0 1 ⟨by decide, by decide, by decide⟩ (by decide)⟩

/-! ## C2: fallback on a missed phrase -/

theorem last_start_append (bs : List SceneBoundary) (b : SceneBoundary) :
    last_start (bs ++ [b]) = b.start_seconds := by
  simp [last_start, List.getLast?_concat]

/-- The assembly loop's `last_end` always equals the last accumulated
boundary's start (0 initially): `last_end` is updated to exactly the
start recorded for each boundary. -/
theorem run_last_end_inv (words : List TranscriptWord) :
    ∀ (phrases : List (String × String)) (i : Nat) (st : AssemblerState),
    st.last_end = last_start st.boundaries →
    (run_scenes_from words i st phrases).last_end =
      last_start (run_scenes_from words i st phrases).boundaries := by
  intro phrases
  induction phrases with
  | nil => intro i st h; exact h
  | cons sp rest ih =>
    intro i st h
    obtain ⟨slug, phrase⟩ := sp
    apply ih
    cases hf : find_phrase_in_transcript phrase words st.search_from with
    | none => simp [step_scene, hf, h, last_start_append]
    | some t => simp [step_scene, hf, last_start_append]

/-- C2: when a scene's opening phrase is not found at or after the
current cursor, the assembler appends a boundary whose start is the
previous boundary's start (the fallback `last_end`, which is exactly the
prior boundary's recorded start), appends a warning naming the scene's
slug and phrase, leaves the search cursor unchanged, leaves `last_end`
unchanged, and continues with all previously accumulated boundaries
intact. -/
theorem C2_no_match_fallback (words : List TranscriptWord) (st : AssemblerState)
    (k : Nat) (slug phrase : String)
    (hinv : st.last_end = last_start st.boundaries)
    (h : find_phrase_in_transcript phrase words st.search_from = none) :
    step_scene words st k slug phrase =
      { boundaries := st.boundaries ++ [⟨k + 1, slug, last_start st.boundaries, phrase⟩]
        last_end := st.last_end
        search_from := st.search_from
        warnings := st.warnings ++ [(slug, phrase)] } := by
  simp [step_scene, h, hinv]

/-- C2 witness: the fallback behaviour at a concrete missed scene. -/
theorem C2_no_match_fallback_witness :
    step_scene ce2_words ce2_state 1 ("s2") ("qqq") =
      { boundaries := ce2_state.boundaries ++ [⟨2, "s2", last_start ce2_state.boundaries, "qqq"⟩]
        last_end := ce2_state.last_end
        search_from := ce2_state.search_from
        warnings := ce2_state.warnings ++ [("s2", "qqq")] } :=
  C2_no_match_fallback ce2_words ce2_state 1 ("s2") ("qqq") (by decide) (by decide)

/-! ## C6: cursor advance after a successful match -/

theorem first_index_from_spec (p : TranscriptWord → Bool) :
    ∀ (l : List TranscriptWord),
    (∀ j, first_index_from p l = some j →
      ∃ w, l.get? j = some w ∧ p w = true ∧
        ∀ j2 w2, j2 < j → l.get? j2 = some w2 → p w2 = false) ∧
    (first_index_from p l = none → ∀ j w, l.get? j = some w → p w = false) := by
  intro l
  induction l with
  | nil =>
    constructor
    · intro j h; simp [first_index_from] at h
    · intro _ j w h; simp at h
  | cons w l ih =>
    obtain ⟨ih1, ih2⟩ := ih
    by_cases hp : p w = true
    · constructor
      · intro j h
        have h0 : some (0 : Nat) = some j := by simpa [first_index_from, hp] using h
        cases h0
        exact ⟨w, rfl, hp, fun j2 w2 hj2 _ => absurd hj2 (Nat.not_lt_zero _)⟩
      · intro h
        exfalso
        simp [first_index_from, hp] at h
    · have hpw : p w = false := by simpa using hp
      have hrec : first_index_from p (w :: l) = (first_index_from p l).map (fun j => j + 1) := by
        simp [first_index_from, hpw]
      constructor
      · intro j h
        rw [hrec] at h
        cases hfl : first_index_from p l with
        | none => rw [hfl] at h; cases h
        | some j0 =>
          rw [hfl] at h
          have hj : j0 + 1 = j := by simpa using h
          obtain ⟨w0, hget0, hp0, hmin0⟩ := ih1 j0 hfl
          refine ⟨w0, by rw [← hj]; simpa using hget0, hp0, ?_⟩
          intro j2 w2 hj2 hget2
          cases j2 with
          | zero =>
            have : w2 = w := by simpa using hget2.symm
            rw [this]; exact hpw
          | succ j3 =>
            exact hmin0 j3 w2 (by omega) (by simpa using hget2)
      · intro h j w2 hget
        rw [hrec] at h
        cases hfl : first_index_from p l with
        | some j0 => rw [hfl] at h; cases h
        | none =>
          cases j with
          | zero =>
            have : w2 = w := by simpa using hget.symm
            rw [this]; exact hpw
          | succ j3 => exact ih2 hfl j3 w2 (by simpa using hget)

/-- C6: when a scene's phrase matches at time `t`, the assembler sets
the cursor to the index of the first transcript word whose start is at
least `t + 1`; when no transcript word has start at least `t + 1`, the
cursor is left unchanged. -/
theorem C6_cursor_advance (words : List TranscriptWord) (st : AssemblerState)
    (k : Nat) (slug phrase : String) (t : Rat)
    (h : find_phrase_in_transcript phrase words st.search_from = some t) :
    ((∃ j w, words.get? j = some w ∧ t + 1 ≤ w.start) →
      ∃ j w, (step_scene words st k slug phrase).search_from = j ∧
        words.get? j = some w ∧ t + 1 ≤ w.start ∧
        ∀ j2 w2, j2 < j → words.get? j2 = some w2 → w2.start < t + 1) ∧
    ((∀ j w, words.get? j = some w → w.start < t + 1) →
      (step_scene words st k slug phrase).search_from = st.search_from) := by
  have hcur : (step_scene words st k slug phrase).search_from =
      (first_index_from (fun w => decide (t + 1 ≤ w.start)) words).getD st.search_from := by
    simp [step_scene, h]
  obtain ⟨spec1, spec2⟩ := first_index_from_spec (fun w => decide (t + 1 ≤ w.start)) words
  constructor
  · rintro ⟨j, w, hget, hle⟩
    cases hfi : first_index_from (fun w => decide (t + 1 ≤ w.start)) words with
    | none =>
      exfalso
      have := spec2 hfi j w hget
      simp at this
      exact absurd hle (not_le.mpr this)
    | some j0 =>
      obtain ⟨w0, hget0, hp0, hmin0⟩ := spec1 j0 hfi
      refine ⟨j0, w0, by rw [hcur, hfi]; rfl, hget0, by simpa using hp0, ?_⟩
      intro j2 w2 hj2 hget2
      have := hmin0 j2 w2 hj2 hget2
      simpa using this
  · intro hall
    cases hfi : first_index_from (fun w => decide (t + 1 ≤ w.start)) words with
    | none => rw [hcur, hfi]; rfl
    | some j0 =>
      exfalso
      obtain ⟨w0, hget0, hp0, _⟩ := spec1 j0 hfi
      have h1 : t + 1 ≤ w0.start := by simpa using hp0
      exact absurd h1 (not_le.mpr (hall j0 w0 hget0))

/-- C6 witness: the cursor-advance characterization instantiated at a
concrete matched scene. -/
theorem C6_cursor_advance_witness :
    ((∃ j w, ce6_words.get? j = some w ∧ (0 : Rat) + 1 ≤ w.start) →
      ∃ j w, (step_scene ce6_words init_state 0 ("s1") ("alpha")).search_from = j ∧
        ce6_words.get? j = some w ∧ (0 : Rat) + 1 ≤ w.start ∧
        ∀ j2 w2, j2 < j → ce6_words.get? j2 = some w2 → w2.start < (0 : Rat) + 1) ∧
    ((∀ j w, ce6_words.get? j = some w → w.start < (0 : Rat) + 1) →
      (step_scene ce6_words init_state 0 ("s1") ("alpha")).search_from = init_state.search_from) :=
  C6_cursor_advance ce6_words init_state 0 ("s1") ("alpha") 0 (by decide)

/-! ## The duration pass, positionally -/

theorem add_durations_get? (total : Rat) : ∀ (bs : List SceneBoundary) (i : Nat),
    (add_durations total bs).get? i =
      (bs.get? i).map (fun b =>
        ⟨b, match bs.get? (i + 1) with
            | some b2 => round2 (b2.start_seconds - b.start_seconds)
            | none => round2 (total - b.start_seconds)⟩) := by
  intro bs
  induction bs with
  | nil => intro i; simp [add_durations]
  | cons b rest ih =>
    intro i
    cases rest with
    | nil =>
      cases i with
      | zero => simp [add_durations]
      | succ i => simp [add_durations]
    | cons b2 rest2 =>
      cases i with
      | zero => simp [add_durations]
      | succ i => simpa [add_durations] using ih i

/-- Each loop iteration only appends to the accumulated boundary list:
the final list extends any intermediate state's list. -/
theorem run_boundaries_extend (words : List TranscriptWord) :
    ∀ (phrases : List (String × String)) (i : Nat) (st : AssemblerState),
    ∃ tl, (run_scenes_from words i st phrases).boundaries = st.boundaries ++ tl := by
  intro phrases
  induction phrases with
  | nil => intro i st; exact ⟨[], by simp [run_scenes_from]⟩
  | cons sp rest ih =>
    intro i st
    obtain ⟨slug, phrase⟩ := sp
    obtain ⟨tl, htl⟩ := ih (i + 1) (step_scene words st i slug phrase)
    have hshow : run_scenes_from words i st ((slug, phrase) :: rest) =
        run_scenes_from words (i + 1) (step_scene words st i slug phrase) rest := rfl
    cases hf : find_phrase_in_transcript phrase words st.search_from with
    | none =>
      refine ⟨⟨i + 1, slug, st.last_end, phrase⟩ :: tl, ?_⟩
      rw [hshow, htl]
      simp [step_scene, hf]
    | some t =>
      refine ⟨⟨i + 1, slug, t, phrase⟩ :: tl, ?_⟩
      rw [hshow, htl]
      simp [step_scene, hf]

/-- C10: when the very first scene's phrase is not found anywhere in the
transcript, the first boundary's start is 0 — the initial fallback
value — regardless of the first transcript word's start time. -/
theorem C10_first_scene_fallback (words : List TranscriptWord)
    (slug phrase : String) (rest : List (String × String))
    (h : find_phrase_in_transcript phrase words 0 = none) :
    ((extract_boundaries words ((slug, phrase) :: rest)).map
      (fun b => b.base.start_seconds)).head? = some 0 := by
  have hstep : step_scene words init_state 0 slug phrase =
      ⟨[⟨1, slug, 0, phrase⟩], 0, 0, [(slug, phrase)]⟩ := by
    simp [step_scene, init_state, h]
  obtain ⟨tl, htl⟩ :=
    run_boundaries_extend words rest 1 ⟨[⟨1, slug, 0, phrase⟩], 0, 0, [(slug, phrase)]⟩
  have hrun : (run_scenes words ((slug, phrase) :: rest)).boundaries =
      ⟨1, slug, 0, phrase⟩ :: tl := by
    show (run_scenes_from words 0 init_state ((slug, phrase) :: rest)).boundaries = _
    rw [show run_scenes_from words 0 init_state ((slug, phrase) :: rest) =
        run_scenes_from words 1 (step_scene words init_state 0 slug phrase) rest from rfl]
    rw [hstep, htl]
    rfl
  rw [extract_boundaries, hrun]
  cases tl with
  | nil => simp [add_durations]
  | cons b2 tl2 => simp [add_durations]

/-- C10 witness: a one-word transcript whose word starts at 7.5, a
single scene whose phrase does not occur — the boundary start is 0, not
7.5. -/
theorem C10_first_scene_fallback_witness :
    ((extract_boundaries ce2_words [("s1", "alpha")]).map
      (fun b => b.base.start_seconds)).head? = some 0 :=
  C10_first_scene_fallback ce2_words ("s1") "alpha" [] (by decide)

/-! ## Hundredths arithmetic for the duration claims -/

theorem cent_zero : cent 0 := by
  unfold cent
  norm_num

theorem round_half_even_intCast (n : Int) : round_half_even (n : Rat) = n := by
  have hf : ⌊(n : Rat)⌋ = n := Int.floor_intCast n
  simp only [round_half_even, hf]
  norm_num

theorem cent_num (q : Rat) (h : cent q) : q * 100 = (((q * 100).num : Int) : Rat) :=
  ((Rat.den_eq_one_iff _).mp h).symm

theorem round2_cent (q : Rat) (h : cent q) : round2 q = q := by
  rw [round2, cent_num q h, round_half_even_intCast, ← cent_num q h]
  field_simp

theorem cent_sub (a b : Rat) (ha : cent a) (hb : cent b) : cent (a - b) := by
  unfold cent
  have h1 : (a - b) * 100 = (((a * 100).num - (b * 100).num : Int) : Rat) := by
    push_cast
    rw [← cent_num a ha, ← cent_num b hb]
    ring
  rw [h1]
  exact Rat.den_intCast _

/-- Any timestamp the scan returns is the start of some transcript
word. -/
theorem scan_start_mem (tks : List String) : ∀ (ws : List TranscriptWord) (t : Rat),
    scan_phrase tks ws = some t → ∃ w ∈ ws, t = w.start := by
  intro ws
  induction ws with
  | nil => intro t h; simp [scan_phrase] at h
  | cons w ws ih =>
    intro t h
    by_cases hlen : tks.length ≤ ws.length + 1
    · by_cases hm : tokens_match tks (w :: ws) = true
      · have h2 : some w.start = some t := by simpa [scan_phrase, hlen, hm] using h
        exact ⟨w, by simp, (Option.some_injective _ h2).symm⟩
      · have h2 : scan_phrase tks ws = some t := by simpa [scan_phrase, hlen, hm] using h
        obtain ⟨w2, hmem, ht⟩ := ih t h2
        exact ⟨w2, by simp [hmem], ht⟩
    · exfalso
      simp [scan_phrase, hlen] at h

theorem find_start_mem (phrase : String) (words : List TranscriptWord)
    (cursor : Nat) (t : Rat)
    (h : find_phrase_in_transcript phrase words cursor = some t) :
    ∃ w ∈ words, t = w.start := by
  obtain ⟨w, hmem, ht⟩ := scan_start_mem (phrase_tokens phrase) (words.drop cursor) t h
  exact ⟨w, List.mem_of_mem_drop hmem, ht⟩

theorem run_cent_inv (words : List TranscriptWord)
    (hw : ∀ w ∈ words, cent w.start) :
    ∀ (phrases : List (String × String)) (i : Nat) (st : AssemblerState),
    centState st → centState (run_scenes_from words i st phrases) := by
  intro phrases
  induction phrases with
  | nil => intro i st h; exact h
  | cons sp rest ih =>
    intro i st h
    obtain ⟨slug, phrase⟩ := sp
    apply ih
    cases hf : find_phrase_in_transcript phrase words st.search_from with
    | none =>
      constructor
      · simpa [step_scene, hf] using h.1
      · intro b hb
        simp [step_scene, hf] at hb
        rcases hb with hb | hb
        · exact h.2 b hb
        · rw [hb]; exact h.1
    | some t =>
      have hct : cent t := by
        obtain ⟨w, hmem, ht⟩ := find_start_mem phrase words st.search_from t hf
        rw [ht]; exact hw w hmem
      constructor
      · simpa [step_scene, hf] using hct
      · intro b hb
        simp [step_scene, hf] at hb
        rcases hb with hb | hb
        · exact h.2 b hb
        · rw [hb]; exact hct

/-- Telescoping of the rounded durations when every start and the total
are on the hundredths grid. -/
theorem sum_add_durations (total : Rat) :
    ∀ (rest : List SceneBoundary) (b0 : SceneBoundary),
    (∀ b ∈ b0 :: rest, cent b.start_seconds) → cent total →
    sum_durations (add_durations total (b0 :: rest)) = total - b0.start_seconds := by
  intro rest
  induction rest with
  | nil =>
    intro b0 hc ht
    have hc0 : cent b0.start_seconds := hc b0 (by simp)
    simp [add_durations, sum_durations]
    exact round2_cent _ (cent_sub total b0.start_seconds ht hc0)
  | cons b1 rest ih =>
    intro b0 hc ht
    have hc0 : cent b0.start_seconds := hc b0 (by simp)
    have hc1 : cent b1.start_seconds := hc b1 (by simp)
    have h1 := ih b1 (fun b hb => hc b (by simp at hb; rcases hb with hb | hb <;> simp [hb])) ht
    simp only [add_durations, sum_durations, List.map_cons, List.sum_cons] at h1 ⊢
    rw [h1, round2_cent _ (cent_sub b1.start_seconds b0.start_seconds hc1 hc0)]
    ring

/-! ## C3: per-boundary durations -/

/-- The full pipeline evaluated on the C3 example. -/
theorem ce3_eval : extract_boundaries ce3_words ce3_phrases = [ce3_b0, ce3_b1] := by
  have hf1 : find_phrase_in_transcript ("alpha") ce3_words 0 = some 0 := by decide
  have hf2 : find_phrase_in_transcript ("beta") ce3_words 0 = some 0.005 := by rfl
  have hidx : first_index_from (fun w => decide ((0 : Rat) + 1 ≤ w.start)) ce3_words = none := by
    norm_num [first_index_from, ce3_words]
  have htd : total_duration ce3_words = 1 := by decide
  simp only [extract_boundaries, run_scenes, ce3_phrases, run_scenes_from, step_scene,
    init_state, hf1, hf2, hidx, htd, Option.getD]
  norm_num [add_durations, round2, round_half_even, ce3_b0, ce3_b1]

/-- C3 counterexample: boundary 0 has start 0 and boundary 1 has start
0.005, but boundary 0's `durationSeconds` is 0, not
`start(1) − start(0) = 0.005` — the code stores the difference rounded
to two decimals, so the claim's exact equation fails. -/
theorem C3_counterexample :
    (extract_boundaries ce3_words ce3_phrases).map
      (fun b => (b.base.start_seconds, b.duration_seconds)) = [(0, 0), (0.005, 1)] ∧
    (0 : Rat) ≠ 0.005 - 0 := by
  constructor
  · rw [ce3_eval]
    norm_num [ce3_b0, ce3_b1]
  · norm_num

/-- C3 amended: `durationSeconds` of boundary `i` equals
`round2(start(i+1) − start(i))` when a next boundary exists, and
`round2(totalDuration − start(i))` for the last boundary, where `round2`
is rounding to two decimal places (the code's `round(x, 2)`). -/
theorem C3_durations (words : List TranscriptWord)
    (phrases : List (String × String)) (i : Nat) (b : TimedBoundary)
    (h1 : (extract_boundaries words phrases).get? i = some b) :
    (∀ b2, (extract_boundaries words phrases).get? (i + 1) = some b2 →
      b.duration_seconds = round2 (b2.base.start_seconds - b.base.start_seconds)) ∧
    ((extract_boundaries words phrases).get? (i + 1) = none →
      b.duration_seconds = round2 (total_duration words - b.base.start_seconds)) := by
  rw [extract_boundaries, add_durations_get?] at h1
  constructor
  · intro b2 h2
    rw [extract_boundaries, add_durations_get?] at h2
    cases hbs2 : (run_scenes words phrases).boundaries.get? (i + 1) with
    | none =>
      rw [hbs2] at h2
      simp at h2
    | some base2 =>
      rw [hbs2] at h1 h2
      cases hbs : (run_scenes words phrases).boundaries.get? i with
      | none =>
        rw [hbs] at h1
        simp at h1
      | some base =>
        rw [hbs] at h1
        simp only [Option.map_some] at h1 h2
        rw [← Option.some_injective _ h1, ← Option.some_injective _ h2]
  · intro h2
    rw [extract_boundaries, add_durations_get?] at h2
    have hbs2 : (run_scenes words phrases).boundaries.get? (i + 1) = none := by
      cases hx : (run_scenes words phrases).boundaries.get? (i + 1) with
      | none => rfl
      | some base2 => rw [hx] at h2; simp at h2
    rw [hbs2] at h1
    cases hbs : (run_scenes words phrases).boundaries.get? i with
    | none =>
      rw [hbs] at h1
      simp at h1
    | some base =>
      rw [hbs] at h1
      simp only [Option.map_some] at h1
      rw [← Option.some_injective _ h1]

/-- C3 witness: the amended duration equation instantiated at boundary
0 of the concrete example. -/
theorem C3_durations_witness :
    (extract_boundaries ce3_words ce3_phrases).get? 0 = some ce3_b0 ∧
    ce3_b0.duration_seconds = round2 (ce3_b1.base.start_seconds - ce3_b0.base.start_seconds) :=
  ⟨by rw [ce3_eval]; rfl,
   (C3_durations ce3_words ce3_phrases 0 ce3_b0 (by rw [ce3_eval]; rfl)).1 ce3_b1
     (by rw [ce3_eval]; rfl)⟩

/-! ## C4: the sum of the durations -/

/-- The full pipeline evaluated on the C4 example. -/
theorem ce4_eval : extract_boundaries ce4_words ce4_phrases = [ce4_b0] := by
  have hfind : find_phrase_in_transcript ("alpha") ce4_words 0 = some 5 := by decide
  have hidx : first_index_from (fun w => decide ((5 : Rat) + 1 ≤ w.start)) ce4_words = none := by
    norm_num [first_index_from, ce4_words]
  have htd : total_duration ce4_words = 6 := by decide
  simp only [extract_boundaries, run_scenes, ce4_phrases, run_scenes_from, step_scene,
    init_state, hfind, hidx, htd, Option.getD]
  norm_num [add_durations, round2, round_half_even, ce4_b0]

/-- C4 counterexample: with a non-empty transcript and scene set, the
durations sum to 1 while `totalDuration` is 6; the difference is 5,
far above the claimed 0.01 tolerance.  The sum telescopes to
`totalDuration − firstStart`, not `totalDuration`. -/
theorem C4_counterexample :
    sum_durations (extract_boundaries ce4_words ce4_phrases) = 1 ∧
    total_duration ce4_words = 6 ∧
    ¬ (|sum_durations (extract_boundaries ce4_words ce4_phrases) -
        total_duration ce4_words| ≤ 1/100) := by
  rw [ce4_eval]
  norm_num [sum_durations, ce4_b0, total_duration, ce4_words]

/-- C4 amended: when every transcript timestamp is a whole number of
hundredths of a second (so each 2-decimal rounding is exact), the sum of
all `durationSeconds` equals `totalDuration` minus the first boundary's
start — it equals `totalDuration` itself only when the first boundary
starts at 0. -/
theorem C4_duration_sum (words : List TranscriptWord)
    (phrases : List (String × String)) (b0 : TimedBoundary) (rest : List TimedBoundary)
    (hw : ∀ w ∈ words, cent w.start ∧ cent w.end_)
    (hout : extract_boundaries words phrases = b0 :: rest) :
    sum_durations (extract_boundaries words phrases) =
      total_duration words - b0.base.start_seconds := by
  have hcent : ∀ b ∈ (run_scenes words phrases).boundaries, cent b.start_seconds :=
    (run_cent_inv words (fun w hw2 => (hw w hw2).1) phrases 0 init_state
      ⟨cent_zero, by intro b hb; simp [init_state] at hb⟩).2
  have htot : cent (total_duration words) := by
    unfold total_duration
    cases hl : words.getLast? with
    | none => exact cent_zero
    | some w => exact (hw w (List.mem_of_getLast?_eq_some hl)).2
  cases hbsl : (run_scenes words phrases).boundaries with
  | nil =>
    exfalso
    rw [extract_boundaries, hbsl] at hout
    simp [add_durations] at hout
  | cons base tl =>
    rw [hbsl] at hcent
    have hsum := sum_add_durations (total_duration words) tl base hcent htot
    have hhead : b0.base = base := by
      rw [extract_boundaries, hbsl] at hout
      cases tl with
      | nil =>
        simp [add_durations] at hout
        rw [← hout.1]
      | cons b2 tl2 =>
        simp [add_durations] at hout
        rw [← hout.1]
    rw [extract_boundaries, hbsl, hsum, hhead]

/-- C4 witness: the telescoped sum instantiated on the concrete
example (sum 1 = total 6 minus first start 5). -/
theorem C4_duration_sum_witness :
    sum_durations (extract_boundaries ce4_words ce4_phrases) =
      total_duration ce4_words - ce4_b0.base.start_seconds :=
  C4_duration_sum ce4_words ce4_phrases ce4_b0 []
    (by
      intro w hw
      simp [ce4_words] at hw
      rw [hw]
      constructor <;> norm_num [cent])
    ce4_eval

/-! ## C8: idempotence of normalization -/

theorem toLower_eq (c : Char) :
    c.toLower = if c.toNat ≥ 65 ∧ c.toNat ≤ 90 then Char.ofNat (c.toNat + 32) else c := rfl

theorem toLower_fixed_of_lower : ∀ n : Nat, 65 ≤ n → n ≤ 90 →
    (Char.ofNat (n + 32)).toLower = Char.ofNat (n + 32) := by
  intro n h1 h2
  interval_cases n <;> decide

theorem char_toLower_toLower (c : Char) : c.toLower.toLower = c.toLower := by
  by_cases h : c.toNat ≥ 65 ∧ c.toNat ≤ 90
  · have h0 : c.toLower = Char.ofNat (c.toNat + 32) := by rw [toLower_eq, if_pos h]
    rw [h0]
    exact toLower_fixed_of_lower c.toNat h.1 h.2
  · have h0 : c.toLower = c := by rw [toLower_eq, if_neg h]
    simp [h0]

/-- C8: normalization is idempotent — lowercasing an already lowercased,
punctuation-free token and stripping non-word characters again changes
nothing. -/
theorem C8_normalize_idempotent (s : String) :
    normalize_word (normalize_word s) = normalize_word s := by
  unfold normalize_word
  congr 1
  show (((s.data.map Char.toLower).filter isWordChar).map Char.toLower).filter isWordChar
      = (s.data.map Char.toLower).filter isWordChar
  have hmap : ((s.data.map Char.toLower).filter isWordChar).map Char.toLower
      = (s.data.map Char.toLower).filter isWordChar := by
    have h1 : ∀ a ∈ (s.data.map Char.toLower).filter isWordChar, a.toLower = id a := by
      intro a ha
      obtain ⟨c, _, hc⟩ := List.mem_map.mp (List.mem_of_mem_filter ha)
      rw [← hc]
      exact char_toLower_toLower c
    exact (List.map_congr_left h1).trans (List.map_id _)
  rw [hmap, List.filter_filter]
  simp only [Bool.and_self]

/-! ## C9: output precedence when both flags are set -/

theorem head_data_append (s t : String) (c : Char) (h : s.data.head? = some c) :
    (s ++ t).data.head? = some c := by
  rw [String.data_append]
  cases hs : s.data with
  | nil => rw [hs] at h; cases h
  | cons a l => rw [hs] at h; simpa using h

theorem format_json_head (bs : List TimedBoundary) :
    (format_json bs).data.head? = some ('[') := by
  cases bs with
  | nil => decide
  | cons b bs2 =>
    have h : format_json (b :: bs2) =
        "[\n" ++ String.intercalate (",\n")
          ((b :: bs2).map (fun x => join_lines (json_item_lines x))) ++ "\n]" := rfl
    rw [h]
    apply head_data_append
    apply head_data_append
    decide

theorem format_typescript_head (bs : List TimedBoundary) :
    (format_typescript bs).data.head? = some ('/') := by
  have h : format_typescript bs = "// Scene timing data (at 30fps)" ++ "\n" ++
      join_lines ("// Timings extracted from full-narration.wav transcript" ::
        "const FPS = 30;" :: "const scenes = [" ::
        ((bs.map ts_scene_lines).flatten ++ ["];"])) := rfl
  rw [h]
  apply head_data_append
  apply head_data_append
  decide

/-- C9: when both output flags are set, `main` prints the JSON rendering
(the `--json` branch wins) and the produced text is not the TypeScript
rendering (their first characters already differ). -/
theorem C9_json_precedence (bs : List TimedBoundary) :
    main_output true true bs = format_json bs ∧
    main_output true true bs ≠ format_typescript bs := by
  constructor
  · rfl
  · intro heq
    have hj : (format_json bs).data.head? = some ('[') := format_json_head bs
    have ht : (format_typescript bs).data.head? = some ('/') := format_typescript_head bs
    have heq2 : format_json bs = format_typescript bs := heq
    rw [heq2, ht] at hj
    cases hj

/-! ## C7: the code-snippet formatter never fails -/

/-- C7 counterexample: a slug that is not a well-formed identifier
source (it contains a space and punctuation) is not rejected: the
formatter silently emits the component identifier
`Scene01Kitchen Opening!` — a mismatched identifier containing a space —
instead of failing with an "unsupported slug shape" error. -/
theorem C7_counterexample :
    ts_component_name 1 ("kitchen opening!") = "Scene01Kitchen Opening!" ∧
    ' ' ∈ (ts_component_name 1 ("kitchen opening!")).data := by
  exact ⟨by decide, by decide⟩

/-- C7 amended: the code-snippet formatter is total — it emits exactly
six lines per boundary plus five frame lines for every boundary list,
and a slug whose first dash-segment is not purely numeric simply falls
back to the zero-padded boundary number as the identifier prefix; no
error is ever signalled. -/
theorem C7_formatter_total (bs : List TimedBoundary) (n : Nat) (slug : String)
    (h : str_isdigit ((split_dash slug).headD ("")) = false) :
    (ts_all_lines bs).length = 5 + 6 * bs.length ∧
    ts_component_name n slug =
      "Scene" ++ zfill 2 (toString n) ++ String.join ((split_dash slug).map title_str) := by
  constructor
  · have hlen : ((bs.map ts_scene_lines).flatten).length = 6 * bs.length := by
      induction bs with
      | nil => simp
      | cons b bs ih =>
        simp only [List.map_cons, List.flatten_cons, List.length_append, ih,
          List.length_cons]
        simp [ts_scene_lines]
        omega
    simp [ts_all_lines, List.length_append, hlen]
    omega
  · have h2 : str_isdigit ((split_dash slug).head?.getD ("")) = false := by
      simpa [List.headD_eq_head?_getD] using h
    simp [ts_component_name, ts_name_info, h2]

/-- C7 witness: the totality statement instantiated on a malformed
slug. -/
theorem C7_formatter_total_witness :
    (ts_all_lines [ce7_b]).length = 5 + 6 * ([ce7_b].length) ∧
    ts_component_name 1 ("kitchen opening!") =
      "Scene" ++ zfill 2 (toString 1) ++
        String.join ((split_dash ("kitchen opening!")).map title_str) :=
  C7_formatter_total [ce7_b] 1 ("kitchen opening!") (by decide)

end ExtractSceneBoundaries
